import Mathlib

/-!
Verification of the DARF analyzer's business logic (extraction reconciliation,
line-item classification, categorized calculation panel, document orchestrator).

Conventions of the embedding:
* JavaScript numbers are modelled as exact rationals (`ℚ`); all monetary
  arithmetic in the source is plain `number` arithmetic.
* JavaScript strings are modelled as Lean `String`s (lists of characters).
* `Set<number>` index sets are modelled as `Finset ℕ`.
* The repository ships several styling variants of each component; their
  business logic is identical except for `initiateCopy`, which exists in two
  behavioural variants (`initiateCopyV1` from the first `DarfCard.tsx` variant,
  `initiateCopyV2` from `src/unnamed/part_001` and the second variant).
* Clipboard writes are modelled by returning the numeric value whose
  pt-BR-formatted text the component writes; the success path of the
  `navigator.clipboard.writeText` call is modelled (failure is caught and
  changes no state).  `setTimeout` reverts are modelled by the explicit
  transition `copyTimeoutElapsed`.
-/

/-- One row of the extracted composition table.  The `LineItem` type itself
lives in the repository's `types` module (imported as `../types`, not among
the staged files); its fields are fixed by every use in `src` and by the
spec's data model: `code`, optional `description`, and the four monetary
fields. -/
structure LineItem where
  code : String
  description : Option String
  principal : ℚ
  multa : ℚ
  juros : ℚ
  total : ℚ
deriving DecidableEq

/-- `ProcessingStatus` enum from the repository's `types` module, fixed by its
uses in `src/App.tsx` and `src/components/DarfCard.tsx`. -/
inductive ProcessingStatus where
  | pending
  | processing
  | success
  | error
deriving DecidableEq

/-- The extraction result `{ headerTotal, items }` (spec §3, uses in src). -/
structure DarfResult where
  headerTotal : ℚ
  items : List LineItem
deriving DecidableEq

/-- A document record held by the orchestrator (`DarfDocument` of the `types`
module; fields fixed by `src/App.tsx` lines 17-39 and 45-51 and
`DarfCard.tsx` line 22).  The `file` handle is outside the model. -/
structure DarfDocument where
  id : String
  fileName : String
  uploadTimestamp : ℕ
  status : ProcessingStatus
  result : Option DarfResult
  calculatedTotal : Option ℚ
  errorMessage : Option String
deriving DecidableEq

/-! ### String utilities -/

/-- `s.replace(/[^\d]/g, '')` resp. `s.replace(/\D/g, '')`: drop every
non-digit character (`DarfCard.tsx` lines 61, 106, 358). -/
def stripNonDigits (s : String) : String :=
  String.mk (s.data.filter fun c => c.isDigit)

/-- `pat` occurs at the start of `l` (helper for JS `String.includes`). -/
def leadsWith : List Char → List Char → Bool
  | [], _ => true
  | _ :: _, [] => false
  | a :: as, b :: bs => a == b && leadsWith as bs

/-- `pat` occurs somewhere in `l` (helper for JS `String.includes`). -/
def hasSub (pat : List Char) : List Char → Bool
  | [] => pat.isEmpty
  | b :: bs => leadsWith pat (b :: bs) || hasSub pat bs

/-- JS `s.includes(pat)` (`DarfCard.tsx` line 66). -/
def strContains (s pat : String) : Bool :=
  hasSub pat.data s.data

/-- JS `s.toLowerCase()`, character by character (`DarfCard.tsx` line 60);
`Char.toLower` lowercases the ASCII range, which covers the alphabet the
descriptions and the searched substring "individ" use. -/
def toLowerStr (s : String) : String :=
  String.mk (s.data.map Char.toLower)

/-- `s.replace(/\./g, '')`: drop every dot (`DarfCard.tsx` line 89). -/
def removeDots (s : String) : String :=
  String.mk (s.data.filter fun c => c != '.')

/-- Replace the first comma by a dot (list level). -/
def replaceCommaAux : List Char → List Char
  | [] => []
  | c :: cs => if c = ',' then '.' :: cs else c :: replaceCommaAux cs

/-- JS `s.replace(',', '.')`: a string pattern replaces only the first
occurrence (`DarfCard.tsx` line 89). -/
def replaceFirstComma (s : String) : String :=
  String.mk (replaceCommaAux s.data)

/-- Numeric value of a digit character. -/
def digitVal (c : Char) : ℕ :=
  c.toNat - 48

/-- Value of a big-endian digit-character list (models JS `parseInt` on an
all-digit string, with exact integer arithmetic). -/
def natOfDigitList (cs : List Char) : ℕ :=
  cs.foldl (fun acc c => 10 * acc + digitVal c) 0

/-- `parseInt` on an all-digit string (`DarfCard.tsx` line 108). -/
def natOfDigits (s : String) : ℕ :=
  natOfDigitList s.data

/-- Fuel-indexed decimal rendering of a natural number (the fuel makes the
recursion structural, so that terms evaluate inside `decide`). -/
def natToDigitsCore : ℕ → ℕ → List Char → List Char
  | 0, _, acc => acc
  | fuel + 1, m, acc =>
    if m < 10 then Nat.digitChar m :: acc
    else natToDigitsCore fuel (m / 10) (Nat.digitChar (m % 10) :: acc)

/-- Decimal digit characters of a natural number, most significant first. -/
def natToDigits (m : ℕ) : List Char :=
  natToDigitsCore (m + 1) m []

/-- Exactly-two-digit rendering of a number below 100 (the fraction part that
`minimumFractionDigits: 2, maximumFractionDigits: 2` produces). -/
def pad2 (k : ℕ) : List Char :=
  [Nat.digitChar (k / 10), Nat.digitChar (k % 10)]

/-- Fuel-indexed pt-BR thousands grouping of a reversed digit list: a `'.'`
after every three digits counted from the least significant end. -/
def groupAuxCore : ℕ → List Char → List Char
  | 0, ds => ds
  | fuel + 1, ds =>
    if ds.length ≤ 3 then ds
    else ds.take 3 ++ '.' :: groupAuxCore fuel (ds.drop 3)

/-- pt-BR thousands grouping of a big-endian digit list. -/
def groupThousands (ds : List Char) : List Char :=
  ((groupAuxCore ds.reverse.length ds.reverse).reverse)

/-- `(cents / 100).toLocaleString('pt-BR', { minimumFractionDigits: 2,
maximumFractionDigits: 2 })` for a non-negative integer number of cents
(`DarfCard.tsx` line 108): thousands separated by `'.'`, decimal comma,
exactly two fraction digits. -/
def formatPtBR (cents : ℕ) : String :=
  String.mk (groupThousands (natToDigits (cents / 100)) ++ ',' :: pad2 (cents % 100))

/-- JS `parseFloat`, modelled for the non-negative decimal strings this
component feeds it (a longest digit prefix, optionally followed by `'.'` and
fraction digits; no sign or exponent forms, which cannot reach this call):
`none` models `NaN`. -/
def parseFloatModel (s : String) : Option ℚ :=
  let cs := s.data
  let intPart := cs.takeWhile Char.isDigit
  let rest := cs.drop intPart.length
  match rest with
  | '.' :: rest2 =>
    let fracPart := rest2.takeWhile Char.isDigit
    if intPart.isEmpty && fracPart.isEmpty then none
    else some ((natOfDigitList intPart : ℚ) + (natOfDigitList fracPart : ℚ) / 10 ^ fracPart.length)
  | _ => if intPart.isEmpty then none else some (natOfDigitList intPart : ℚ)

/-! ### Line-item classifier (`categorizedData`, `DarfCard.tsx` lines 44-84) -/

/-- `RETENTION_CODES` (`DarfCard.tsx` line 19). -/
def RETENTION_CODES : List String :=
  ["5952", "0561", "1062"]

/-- The derived category of a line item (spec §3: Retention / Individual /
Employee).  Not stored by the program; used here to describe the classifier. -/
inductive ItemCategory where
  | retention
  | individual
  | employee
deriving DecidableEq

/-- The branch taken by the `forEach` body of `categorizedData`
(`DarfCard.tsx` lines 59-75): normalize the code by dropping non-digits; a
retention code wins regardless of the description; otherwise the lowercased
description deciding on the substring `"individ"`; employee is the default. -/
def classifyItem (item : LineItem) : ItemCategory :=
  let desc := toLowerStr (item.description.getD "")
  let code := stripNonDigits item.code
  if RETENTION_CODES.contains code then ItemCategory.retention
  else if strContains desc "individ" then ItemCategory.individual
  else ItemCategory.employee

/-- The record returned by `categorizedData`. -/
structure CategorizedData where
  baseFuncionarios : ℚ
  baseIndividuais : ℚ
  itemsFuncIndices : Finset ℕ
  itemsIndivIndices : Finset ℕ
  itemsRetIndices : Finset ℕ
deriving DecidableEq

/-- The initial accumulator (also what `categorizedData` returns when
`result` is absent, `DarfCard.tsx` lines 45-51). -/
def emptyCategorized : CategorizedData :=
  { baseFuncionarios := 0
    baseIndividuais := 0
    itemsFuncIndices := ∅
    itemsIndivIndices := ∅
    itemsRetIndices := ∅ }

/-- One iteration of the `forEach` body at index `idx`. -/
def stepCategorized (idx : ℕ) (item : LineItem) (acc : CategorizedData) : CategorizedData :=
  match classifyItem item with
  | ItemCategory.retention =>
    { acc with itemsRetIndices := insert idx acc.itemsRetIndices }
  | ItemCategory.individual =>
    { acc with
      baseIndividuais := acc.baseIndividuais + item.total
      itemsIndivIndices := insert idx acc.itemsIndivIndices }
  | ItemCategory.employee =>
    { acc with
      baseFuncionarios := acc.baseFuncionarios + item.total
      itemsFuncIndices := insert idx acc.itemsFuncIndices }

/-- The `forEach` loop of `categorizedData`, indices starting at `idx`. -/
def categorizedGo : ℕ → List LineItem → CategorizedData → CategorizedData
  | _, [], acc => acc
  | idx, item :: rest, acc => categorizedGo (idx + 1) rest (stepCategorized idx item acc)

/-- `categorizedData` (`DarfCard.tsx` lines 44-84) on the item list of a
present extraction result. -/
def categorizedData (items : List LineItem) : CategorizedData :=
  categorizedGo 0 items emptyCategorized

/-- The index set of a given category inside a `CategorizedData`. -/
def catIndices : ItemCategory → CategorizedData → Finset ℕ
  | ItemCategory.retention, d => d.itemsRetIndices
  | ItemCategory.individual, d => d.itemsIndivIndices
  | ItemCategory.employee, d => d.itemsFuncIndices

/-! ### Reconciliation check (`App.tsx` line 15, `DarfCard.tsx` lines 38-41) -/

/-- `result.items.reduce((acc, item) => acc + item.total, 0)`
(`App.tsx` line 15): the plain, category-independent sum of item totals. -/
def calculatedTotal (items : List LineItem) : ℚ :=
  items.foldl (fun acc item => acc + item.total) 0

/-- `difference` (`DarfCard.tsx` lines 38-40): the absolute header/computed
gap when the document is a success with a result and a computed total, else
`0`. -/
def difference (doc : DarfDocument) : ℚ :=
  match doc.status, doc.result, doc.calculatedTotal with
  | ProcessingStatus.success, some r, some ct => |r.headerTotal - ct|
  | _, _, _ => 0

/-- `isMatch = difference < 0.05` (`DarfCard.tsx` line 41). -/
def isMatch (doc : DarfDocument) : Bool :=
  decide (difference doc < 5 / 100)

/-! ### Categorized-calculation panel (`DarfCard.tsx` lines 25-135) -/

/-- `CalculationMode` (`DarfCard.tsx` line 9). -/
inductive CalculationMode where
  | funcionarios
  | individuais
deriving DecidableEq

/-- `CopyStage` (`DarfCard.tsx` line 10). -/
inductive CopyStage where
  | idle
  | verifying
  | copied
deriving DecidableEq

/-- The panel's React state (`DarfCard.tsx` lines 25-28). -/
structure CardState where
  calcMode : CalculationMode
  irInputValue : String
  copyStage : CopyStage
  feedbackMessage : String
deriving DecidableEq

/-- `irValueNumber` (`DarfCard.tsx` lines 87-92): empty input is `0`; drop
thousands dots, turn the first comma into a dot, `parseFloat`; `NaN` is `0`. -/
def irValueNumber (irInputValue : String) : ℚ :=
  if irInputValue = "" then 0
  else
    let cleanStr := replaceFirstComma (removeDots irInputValue)
    match parseFloatModel cleanStr with
    | none => 0
    | some num => num

/-- The withholding value carried by a panel state. -/
def irValueOf (s : CardState) : ℚ :=
  irValueNumber s.irInputValue

/-- `finalValue` (`DarfCard.tsx` lines 95-101). -/
def finalValue (calcMode : CalculationMode) (categorized : CategorizedData)
    (irValueNumber : ℚ) : ℚ :=
  match calcMode with
  | CalculationMode.funcionarios => max 0 (categorized.baseFuncionarios - irValueNumber)
  | CalculationMode.individuais => categorized.baseIndividuais + irValueNumber

/-- The final value displayed for a panel state. -/
def finalValueOf (d : CategorizedData) (s : CardState) : ℚ :=
  finalValue s.calcMode d (irValueOf s)

/-- The new `irInputValue` that `handleIrChange` stores (`DarfCard.tsx` lines
104-112): strip non-digits; when non-empty, read the digits as cents and
render pt-BR with exactly two fraction digits.  (The handler also resets
`copyStage` to idle.) -/
def handleIrChange (input : String) : String :=
  let value := stripNonDigits input
  if value = "" then value else formatPtBR (natOfDigits value)

/-- `performCopy` (`src/unnamed/part_001` lines 103-112; inlined in the first
`DarfCard.tsx` variant's `handleConfirmCopy`): write the formatted final
value to the clipboard (modelled by its numeric value), move to the copied
stage.  The success path of the clipboard write is modelled; its failure is
caught and changes no state. -/
def performCopy (d : CategorizedData) (s : CardState) : CardState × Option ℚ :=
  ({ s with copyStage := CopyStage.copied }, some (finalValueOf d s))

/-- `initiateCopy` of the first `DarfCard.tsx` variant (lines 114-117):
always enter the verifying stage and clear the feedback message. -/
def initiateCopyV1 (s : CardState) : CardState :=
  { s with copyStage := CopyStage.verifying, feedbackMessage := "" }

/-- `initiateCopy` of `src/unnamed/part_001` lines 114-121 (the variant the
spec designates canonical): copy immediately when the withholding is
positive, otherwise enter the verifying stage. -/
def initiateCopyV2 (d : CategorizedData) (s : CardState) : CardState × Option ℚ :=
  if 0 < irValueOf s then performCopy d s
  else ({ s with copyStage := CopyStage.verifying, feedbackMessage := "" }, none)

/-- What a confirmation click produces: the next state, the clipboard write
(if any, as the numeric value written) and whether focus moved to the
withholding input. -/
structure ConfirmResult where
  state : CardState
  clipboard : Option ℚ
  focusIr : Bool
deriving DecidableEq

/-- `handleConfirmCopy` (`DarfCard.tsx` lines 119-135, identical in
behaviour in `src/unnamed/part_001` lines 123-132): confirming "yes" with a
non-positive withholding surfaces the validation message and moves focus to
the input without copying; otherwise the copy is performed. -/
def handleConfirmCopy (d : CategorizedData) (s : CardState) (hasIr : Bool) : ConfirmResult :=
  if hasIr then
    if irValueOf s ≤ 0 then
      { state := { s with feedbackMessage := "Digite o valor do IR antes de copiar." }
        clipboard := none
        focusIr := true }
    else
      { state := (performCopy d s).1, clipboard := (performCopy d s).2, focusIr := false }
  else
    { state := (performCopy d s).1, clipboard := (performCopy d s).2, focusIr := false }

/-- The `setTimeout(() => setCopyStage('idle'), 2500)` revert firing after
the acknowledgment window (`DarfCard.tsx` line 131). -/
def copyTimeoutElapsed (s : CardState) : CardState :=
  { s with copyStage := CopyStage.idle }

/-! ### Document orchestrator (`App.tsx` lines 10-41) -/

/-- The success update of `processDocument` (`App.tsx` lines 17-27): the
matching document gets status success, the result, and the locally computed
total; every other document is returned unchanged. -/
def processDocumentSuccess (docs : List DarfDocument) (id : String)
    (result : DarfResult) : List DarfDocument :=
  docs.map fun doc =>
    if doc.id = id then
      { doc with
        status := ProcessingStatus.success
        result := some result
        calculatedTotal := some (calculatedTotal result.items) }
    else doc

/-- The failure update of `processDocument` (`App.tsx` lines 29-39): the
matching document gets status error and the error message; every other
document is returned unchanged. -/
def processDocumentFailure (docs : List DarfDocument) (id : String)
    (message : String) : List DarfDocument :=
  docs.map fun doc =>
    if doc.id = id then
      { doc with status := ProcessingStatus.error, errorMessage := some message }
    else doc

/-! ### Sample values used by witnesses and counterexamples -/

/-- A plain employee-charge line item whose total is 50. -/
def sampleEmployeeItem : LineItem :=
  ⟨"1082", none, 50, 0, 0, 50⟩

/-- An individual-contributor line item whose total is 200. -/
def sampleIndividualItem : LineItem :=
  ⟨"1007", some "CONTRIBUINTE INDIVIDUAL", 200, 0, 0, 200⟩

/-- A retention-code line item whose description mentions "INDIVIDUAL". -/
def sampleRetentionItem : LineItem :=
  ⟨"5952", some "RETENCAO INDIVIDUAL", 10, 0, 0, 10⟩

/-- The single line item of `sampleMatchDoc`, with total 100.04. -/
def sampleMatchItem : LineItem :=
  ⟨"1082", none, 10004 / 100, 0, 0, 10004 / 100⟩

/-- The single line item of `sampleDivergentDoc`, with total 100.06. -/
def sampleDivergentItem : LineItem :=
  ⟨"1082", none, 10006 / 100, 0, 0, 10006 / 100⟩

/-- A successful document whose computed total 100.04 sits within tolerance
of the declared header total 100.00. -/
def sampleMatchDoc : DarfDocument :=
  ⟨"a", "a.pdf", 0, ProcessingStatus.success, some ⟨100, [sampleMatchItem]⟩,
    some (calculatedTotal [sampleMatchItem]), none⟩

/-- A successful document whose computed total 100.06 falls outside the
tolerance of the declared header total 100.00. -/
def sampleDivergentDoc : DarfDocument :=
  ⟨"b", "b.pdf", 0, ProcessingStatus.success, some ⟨100, [sampleDivergentItem]⟩,
    some (calculatedTotal [sampleDivergentItem]), none⟩

/-- A pending document, before any extraction outcome. -/
def samplePendingDoc : DarfDocument :=
  ⟨"p", "p.pdf", 0, ProcessingStatus.pending, none, none, none⟩

/-- A second pending document, target of a failing extraction. -/
def sampleFailTargetDoc : DarfDocument :=
  ⟨"q", "q.pdf", 0, ProcessingStatus.processing, none, none, none⟩

/-- A panel state in the idle stage with an empty withholding input. -/
def sampleIdleState : CardState :=
  ⟨CalculationMode.funcionarios, "", CopyStage.idle, ""⟩

/-- A panel state in the idle stage with withholding input "2,50". -/
def samplePositiveIrState : CardState :=
  ⟨CalculationMode.funcionarios, "2,50", CopyStage.idle, ""⟩

/-! ### Classifier lemmas -/

theorem catIndices_step (c : ItemCategory) (idx : ℕ) (item : LineItem) (acc : CategorizedData) :
    catIndices c (stepCategorized idx item acc) =
      if classifyItem item = c then insert idx (catIndices c acc) else catIndices c acc := by
  cases hc : classifyItem item <;> cases c <;>
    simp [stepCategorized, catIndices, hc]

theorem mem_catIndices_go (c : ItemCategory) (items : List LineItem) :
    ∀ (idx : ℕ) (acc : CategorizedData) (j : ℕ),
      j ∈ catIndices c (categorizedGo idx items acc) ↔
        j ∈ catIndices c acc ∨
          ∃ k, ∃ h : k < items.length, j = idx + k ∧ classifyItem items[k] = c := by
  induction items with
  | nil =>
    intro idx acc j
    simp [categorizedGo]
  | cons item rest ih =>
    intro idx acc j
    rw [show categorizedGo idx (item :: rest) acc
          = categorizedGo (idx + 1) rest (stepCategorized idx item acc) from rfl, ih,
        catIndices_step]
    constructor
    · rintro (hacc | ⟨k, hk, rfl, hcl⟩)
      · by_cases hc : classifyItem item = c
        · rw [if_pos hc] at hacc
          rcases Finset.mem_insert.mp hacc with rfl | hacc
          · exact Or.inr ⟨0, by simp, by simp, by simpa using hc⟩
          · exact Or.inl hacc
        · rw [if_neg hc] at hacc
          exact Or.inl hacc
      · exact Or.inr ⟨k + 1, by simpa using hk, by omega, by simpa using hcl⟩
    · rintro (hacc | ⟨k, hk, rfl, hcl⟩)
      · by_cases hc : classifyItem item = c
        · rw [if_pos hc]
          exact Or.inl (Finset.mem_insert_of_mem hacc)
        · rw [if_neg hc]
          exact Or.inl hacc
      · cases k with
        | zero =>
          have hc : classifyItem item = c := by simpa using hcl
          rw [if_pos hc]
          exact Or.inl (by simp)
        | succ k =>
          refine Or.inr ⟨k, by simpa using hk, by omega, by simpa using hcl⟩

theorem mem_catIndices (c : ItemCategory) (items : List LineItem) (j : ℕ) :
    j ∈ catIndices c (categorizedData items) ↔
      ∃ h : j < items.length, classifyItem items[j] = c := by
  rw [categorizedData, mem_catIndices_go]
  have hempty : j ∈ catIndices c emptyCategorized ↔ False := by
    cases c <;> simp [catIndices, emptyCategorized]
  rw [hempty]
  constructor
  · rintro (h | ⟨k, hk, rfl, hcl⟩)
    · exact absurd h not_false
    · exact ⟨by simpa using hk, by simpa using hcl⟩
  · rintro ⟨h, hcl⟩
    exact Or.inr ⟨j, h, by simp, hcl⟩

theorem baseIndividuais_go (items : List LineItem) :
    ∀ (idx : ℕ) (acc : CategorizedData),
      (categorizedGo idx items acc).baseIndividuais =
        acc.baseIndividuais +
          ((items.filter fun it => classifyItem it == ItemCategory.individual).map
            LineItem.total).sum := by
  induction items with
  | nil => intro idx acc; simp [categorizedGo]
  | cons item rest ih =>
    intro idx acc
    rw [show categorizedGo idx (item :: rest) acc
          = categorizedGo (idx + 1) rest (stepCategorized idx item acc) from rfl, ih]
    cases hc : classifyItem item <;>
      simp [stepCategorized, hc, List.filter_cons] <;> ring

theorem baseFuncionarios_go (items : List LineItem) :
    ∀ (idx : ℕ) (acc : CategorizedData),
      (categorizedGo idx items acc).baseFuncionarios =
        acc.baseFuncionarios +
          ((items.filter fun it => classifyItem it == ItemCategory.employee).map
            LineItem.total).sum := by
  induction items with
  | nil => intro idx acc; simp [categorizedGo]
  | cons item rest ih =>
    intro idx acc
    rw [show categorizedGo idx (item :: rest) acc
          = categorizedGo (idx + 1) rest (stepCategorized idx item acc) from rfl, ih]
    cases hc : classifyItem item <;>
      simp [stepCategorized, hc, List.filter_cons] <;> ring

theorem classifyItem_retention (item : LineItem)
    (h : stripNonDigits item.code ∈ RETENTION_CODES) :
    classifyItem item = ItemCategory.retention := by
  simp [classifyItem, h]

theorem classifyItem_individual (item : LineItem)
    (h : stripNonDigits item.code ∉ RETENTION_CODES)
    (hd : strContains (toLowerStr (item.description.getD "")) "individ" = true) :
    classifyItem item = ItemCategory.individual := by
  simp [classifyItem, h, hd]

theorem classifyItem_employee (item : LineItem)
    (h : stripNonDigits item.code ∉ RETENTION_CODES)
    (hd : strContains (toLowerStr (item.description.getD "")) "individ" = false) :
    classifyItem item = ItemCategory.employee := by
  simp [classifyItem, h, hd]

/-! ### Claim theorems -/

/-- C1: for every list of line items, the three index sets returned by the
classifier (`categorizedData`) are pairwise disjoint and their union is the
full set of item indices: every index is assigned to exactly one category. -/
theorem C1_classifier_partition (items : List LineItem) :
    Disjoint (categorizedData items).itemsRetIndices (categorizedData items).itemsIndivIndices ∧
    Disjoint (categorizedData items).itemsRetIndices (categorizedData items).itemsFuncIndices ∧
    Disjoint (categorizedData items).itemsIndivIndices (categorizedData items).itemsFuncIndices ∧
    (categorizedData items).itemsRetIndices ∪ (categorizedData items).itemsIndivIndices ∪
        (categorizedData items).itemsFuncIndices = Finset.range items.length := by
  have hr := fun j => mem_catIndices ItemCategory.retention items j
  have hi := fun j => mem_catIndices ItemCategory.individual items j
  have he := fun j => mem_catIndices ItemCategory.employee items j
  simp only [catIndices] at hr hi he
  refine ⟨?_, ?_, ?_, ?_⟩
  · rw [Finset.disjoint_left]
    intro j h1 h2
    obtain ⟨_, e1⟩ := (hr j).mp h1
    obtain ⟨_, e2⟩ := (hi j).mp h2
    exact absurd (e1 ▸ e2) (by simp)
  · rw [Finset.disjoint_left]
    intro j h1 h2
    obtain ⟨_, e1⟩ := (hr j).mp h1
    obtain ⟨_, e2⟩ := (he j).mp h2
    exact absurd (e1 ▸ e2) (by simp)
  · rw [Finset.disjoint_left]
    intro j h1 h2
    obtain ⟨_, e1⟩ := (hi j).mp h1
    obtain ⟨_, e2⟩ := (he j).mp h2
    exact absurd (e1 ▸ e2) (by simp)
  · ext j
    simp only [Finset.mem_union, Finset.mem_range, hr, hi, he]
    constructor
    · rintro ((⟨h, _⟩ | ⟨h, _⟩) | ⟨h, _⟩) <;> exact h
    · intro h
      cases hc : classifyItem items[j] with
      | retention => exact Or.inl (Or.inl ⟨h, by assumption⟩)
      | individual => exact Or.inl (Or.inr ⟨h, by assumption⟩)
      | employee => exact Or.inr ⟨h, by assumption⟩

/-- C2: for every item, a code whose non-digit characters are stripped that
lies in the retention set is assigned to Retention regardless of the
description; otherwise a lowercased description containing "individ" sends
the item (and its total) to Individual, and anything else to Employee; the
two sums range over exactly the items of their own category, so retention
totals are excluded from both. -/
theorem C2_classification_rule (items : List LineItem) (j : ℕ) (h : j < items.length) :
    (stripNonDigits items[j].code ∈ RETENTION_CODES →
        j ∈ (categorizedData items).itemsRetIndices) ∧
    (stripNonDigits items[j].code ∉ RETENTION_CODES →
        strContains (toLowerStr (items[j].description.getD "")) "individ" = true →
        j ∈ (categorizedData items).itemsIndivIndices) ∧
    (stripNonDigits items[j].code ∉ RETENTION_CODES →
        strContains (toLowerStr (items[j].description.getD "")) "individ" = false →
        j ∈ (categorizedData items).itemsFuncIndices) ∧
    (categorizedData items).baseIndividuais =
      ((items.filter fun it => classifyItem it == ItemCategory.individual).map
        LineItem.total).sum ∧
    (categorizedData items).baseFuncionarios =
      ((items.filter fun it => classifyItem it == ItemCategory.employee).map
        LineItem.total).sum := by
  refine ⟨?_, ?_, ?_, ?_, ?_⟩
  · intro hcode
    exact (mem_catIndices ItemCategory.retention items j).mpr
      ⟨h, classifyItem_retention _ hcode⟩
  · intro hcode hdesc
    exact (mem_catIndices ItemCategory.individual items j).mpr
      ⟨h, classifyItem_individual _ hcode hdesc⟩
  · intro hcode hdesc
    exact (mem_catIndices ItemCategory.employee items j).mpr
      ⟨h, classifyItem_employee _ hcode hdesc⟩
  · simpa [emptyCategorized] using baseIndividuais_go items 0 emptyCategorized
  · simpa [emptyCategorized] using baseFuncionarios_go items 0 emptyCategorized

/-- Witness for C2 at a concrete input: the retention item with code "5952"
is assigned to Retention even though its description contains "INDIVIDUAL". -/
theorem C2_classification_rule_witness :
    (0 : ℕ) < [sampleRetentionItem].length ∧
      0 ∈ (categorizedData [sampleRetentionItem]).itemsRetIndices :=
  ⟨by decide,
    (C2_classification_rule [sampleRetentionItem] 0 (by decide)).1 (by decide)⟩

/-- C3: for every successfully processed document, whose stored
`calculatedTotal` is the orchestrator's plain sum of all item totals, the
reconciliation flag `isMatch` is true exactly when the absolute difference
between the declared header total and that sum is below the 0.05 tolerance. -/
theorem C3_reconciliation (doc : DarfDocument) (r : DarfResult)
    (hs : doc.status = ProcessingStatus.success) (hr : doc.result = some r)
    (hct : doc.calculatedTotal = some (calculatedTotal r.items)) :
    isMatch doc = true ↔ |r.headerTotal - calculatedTotal r.items| < 5 / 100 := by
  obtain ⟨id, fn, ts, st, res, ct, em⟩ := doc
  simp only at hs hr hct
  subst hs hr hct
  simp [isMatch, difference]

/-- Witness for C3 at the spec's example inputs: header 100.00 against a
computed 100.04 validates, against a computed 100.06 it does not. -/
theorem C3_reconciliation_witness :
    isMatch sampleMatchDoc = true ∧ isMatch sampleDivergentDoc = false := by
  constructor
  · exact (C3_reconciliation sampleMatchDoc ⟨100, [sampleMatchItem]⟩ rfl rfl rfl).mpr
      (by norm_num [calculatedTotal, sampleMatchItem, abs_of_nonneg, abs_of_nonpos])
  · have h := C3_reconciliation sampleDivergentDoc ⟨100, [sampleDivergentItem]⟩ rfl rfl rfl
    have hn : ¬ (|(100 : ℚ) - calculatedTotal [sampleDivergentItem]| < 5 / 100) := by
      norm_num [calculatedTotal, sampleDivergentItem, abs_of_nonneg, abs_of_nonpos]
    rcases hb : isMatch sampleDivergentDoc with _ | _
    · rfl
    · exact absurd (h.mp hb) hn

/-- C4: in Employee mode the final value is `max 0 (sumEmployee - ir)` for
every classified item list and withholding, hence never negative; at the
spec's example (sum 50, withholding 80) it is 0, not -30. -/
theorem C4_employee_final (items : List LineItem) (ir : ℚ) :
    finalValue CalculationMode.funcionarios (categorizedData items) ir =
        max 0 ((categorizedData items).baseFuncionarios - ir) ∧
    0 ≤ finalValue CalculationMode.funcionarios (categorizedData items) ir ∧
    finalValue CalculationMode.funcionarios (categorizedData [sampleEmployeeItem]) 80 = 0 := by
  refine ⟨rfl, le_max_left 0 _, ?_⟩
  have hclass : classifyItem sampleEmployeeItem = ItemCategory.employee := by decide
  have hbase : (categorizedData [sampleEmployeeItem]).baseFuncionarios = 50 := by
    simp [categorizedData, categorizedGo, stepCategorized, hclass, emptyCategorized,
      show sampleEmployeeItem.total = 50 from rfl]
  simp only [finalValue, hbase]
  norm_num

/-- C5: in Individual mode the final value is `sumIndividual + ir` for every
classified item list and withholding; at the spec's example (sum 200,
withholding 25.50) it is 225.50. -/
theorem C5_individual_final (items : List LineItem) (ir : ℚ) :
    finalValue CalculationMode.individuais (categorizedData items) ir =
        (categorizedData items).baseIndividuais + ir ∧
    finalValue CalculationMode.individuais (categorizedData [sampleIndividualItem]) (2550 / 100) =
      22550 / 100 := by
  refine ⟨rfl, ?_⟩
  have hclass : classifyItem sampleIndividualItem = ItemCategory.individual := by decide
  have hbase : (categorizedData [sampleIndividualItem]).baseIndividuais = 200 := by
    simp [categorizedData, categorizedGo, stepCategorized, hclass, emptyCategorized,
      show sampleIndividualItem.total = 200 from rfl]
  simp only [finalValue, hbase]
  norm_num

/-- C10: a document that is not a success, or lacks a result or computed
total, has reconciliation difference 0, so its `isMatch` flag is true. -/
theorem C10_default_match (doc : DarfDocument)
    (h : doc.status ≠ ProcessingStatus.success ∨ doc.result = none ∨
      doc.calculatedTotal = none) :
    difference doc = 0 ∧ isMatch doc = true := by
  have hd : difference doc = 0 := by
    obtain ⟨id, fn, ts, st, res, ct, em⟩ := doc
    simp only at h
    cases st <;> cases res <;> cases ct <;> simp_all [difference]
  exact ⟨hd, by simp [isMatch, hd]⟩

/-- Witness for C10: a freshly created pending document counts as a match. -/
theorem C10_default_match_witness :
    difference samplePendingDoc = 0 ∧ isMatch samplePendingDoc = true :=
  C10_default_match samplePendingDoc (Or.inl (by decide))

/-- C9: when extraction fails for the document with the given id, the
orchestrator's update gives that document (at its position) status Error
with the error message stored, leaves all of its other fields intact, and
returns every document with a different id entirely unchanged; the list
keeps its length. -/
theorem C9_failure_isolation (docs : List DarfDocument) (id message : String) (i : ℕ)
    (d : DarfDocument) (hd : docs[i]? = some d) :
    (processDocumentFailure docs id message).length = docs.length ∧
    (d.id = id → (processDocumentFailure docs id message)[i]? =
        some { d with status := ProcessingStatus.error, errorMessage := some message }) ∧
    (d.id ≠ id → (processDocumentFailure docs id message)[i]? = some d) := by
  refine ⟨List.length_map .., ?_, ?_⟩
  · intro heq
    rw [processDocumentFailure, List.getElem?_map, hd]
    simp [heq]
  · intro hne
    rw [processDocumentFailure, List.getElem?_map, hd]
    simp [hne]

/-- Witness for C9: failing the document "q" in a two-document list turns it
into an Error with the message stored while the document "p" is unchanged. -/
theorem C9_failure_isolation_witness :
    (processDocumentFailure [samplePendingDoc, sampleFailTargetDoc] "q" "boom")[0]? =
        some samplePendingDoc ∧
    (processDocumentFailure [samplePendingDoc, sampleFailTargetDoc] "q" "boom")[1]? =
        some { sampleFailTargetDoc with
          status := ProcessingStatus.error, errorMessage := some "boom" } :=
  ⟨(C9_failure_isolation [samplePendingDoc, sampleFailTargetDoc] "q" "boom" 0
      samplePendingDoc rfl).2.2 (by decide),
   (C9_failure_isolation [samplePendingDoc, sampleFailTargetDoc] "q" "boom" 1
      sampleFailTargetDoc rfl).2.1 rfl⟩

/-- C7: from the idle stage with a zero withholding, initiating the copy (in
either variant) enters the verifying stage without any clipboard write;
confirming "yes" while the withholding is still zero surfaces the validation
message, moves focus to the amount input, keeps the stage verifying and
writes nothing; confirming "no" writes the unadjusted final value, moves the
stage to copied, and the timeout reverts it to idle. -/
theorem C7_copy_flow (d : CategorizedData) (s : CardState)
    (hidle : s.copyStage = CopyStage.idle) (hir : irValueOf s = 0) :
    (initiateCopyV1 s).copyStage = CopyStage.verifying ∧
    (initiateCopyV2 d s).1.copyStage = CopyStage.verifying ∧
    (initiateCopyV2 d s).2 = none ∧
    (handleConfirmCopy d (initiateCopyV1 s) true).state.copyStage = CopyStage.verifying ∧
    (handleConfirmCopy d (initiateCopyV1 s) true).state.feedbackMessage =
      "Digite o valor do IR antes de copiar." ∧
    (handleConfirmCopy d (initiateCopyV1 s) true).clipboard = none ∧
    (handleConfirmCopy d (initiateCopyV1 s) true).focusIr = true ∧
    (handleConfirmCopy d (initiateCopyV1 s) false).state.copyStage = CopyStage.copied ∧
    (handleConfirmCopy d (initiateCopyV1 s) false).clipboard =
      some (finalValueOf d (initiateCopyV1 s)) ∧
    (copyTimeoutElapsed (handleConfirmCopy d (initiateCopyV1 s) false).state).copyStage =
      CopyStage.idle := by
  have hir1 : irValueNumber s.irInputValue = 0 := hir
  refine ⟨rfl, ?_, ?_, ?_, ?_, ?_, ?_, ?_, ?_, ?_⟩ <;>
    simp [initiateCopyV1, initiateCopyV2, handleConfirmCopy, performCopy,
      copyTimeoutElapsed, irValueOf, hir1]

/-- Witness for C7 at the concrete idle state with an empty withholding
input: initiating enters verifying, "yes" writes nothing, "no" copies. -/
theorem C7_copy_flow_witness :
    (initiateCopyV1 sampleIdleState).copyStage = CopyStage.verifying ∧
    (handleConfirmCopy emptyCategorized (initiateCopyV1 sampleIdleState) true).clipboard =
        none ∧
    (handleConfirmCopy emptyCategorized (initiateCopyV1 sampleIdleState) false).state.copyStage =
      CopyStage.copied := by
  have h := C7_copy_flow emptyCategorized sampleIdleState rfl rfl
  exact ⟨h.1, h.2.2.2.2.2.1, h.2.2.2.2.2.2.2.1⟩

/-- Helper for evaluating concrete withholding inputs: the input "2,50"
parses to the rational 5/2. -/
theorem irValueNumber_sample : irValueNumber "2,50" = 5 / 2 := by
  have h1 : replaceFirstComma (removeDots "2,50") = "2.50" := by decide
  have h2 : parseFloatModel "2.50" =
      some ((natOfDigitList ['2'] : ℚ) + (natOfDigitList ['5', '0'] : ℚ) / 10 ^ 2) := rfl
  rw [irValueNumber, if_neg (by decide : ¬ ("2,50" = "")), h1]
  show (match parseFloatModel "2.50" with | none => 0 | some num => num) = (5 / 2 : ℚ)
  have h3 : natOfDigitList ['2'] = 2 := by decide
  have h4 : natOfDigitList ['5', '0'] = 50 := by decide
  rw [h2, h3, h4]
  norm_num

/-- C8 counterexample: the claim fails on the first `DarfCard.tsx` variant.
In the state with withholding input "2,50" (value 5/2 > 0) its
`initiateCopy` does not copy immediately: it enters the verifying stage (and
performs no clipboard write at all - the function has no copy path). -/
theorem C8_counterexample :
    0 < irValueOf samplePositiveIrState ∧
    (initiateCopyV1 samplePositiveIrState).copyStage = CopyStage.verifying := by
  constructor
  · show (0 : ℚ) < irValueNumber "2,50"
    rw [irValueNumber_sample]
    norm_num
  · rfl

/-- C8 (amended to the canonical variant, `src/unnamed/part_001`): whenever
the withholding value is strictly positive, `initiateCopy` copies the final
value immediately (stage becomes copied, never verifying); only with a zero
withholding does it enter the verifying stage, writing nothing. -/
theorem C8_guarded_copy (d : CategorizedData) (s : CardState) :
    (0 < irValueOf s →
        initiateCopyV2 d s =
          ({ s with copyStage := CopyStage.copied }, some (finalValueOf d s))) ∧
    (irValueOf s = 0 →
        (initiateCopyV2 d s).1.copyStage = CopyStage.verifying ∧
        (initiateCopyV2 d s).2 = none) := by
  constructor
  · intro h
    rw [initiateCopyV2, if_pos h]
    rfl
  · intro h
    rw [initiateCopyV2, if_neg (by rw [h]; exact lt_irrefl 0)]
    exact ⟨rfl, rfl⟩

/-- Witness for C8 at the concrete state with withholding "2,50": the
canonical `initiateCopy` copies immediately. -/
theorem C8_guarded_copy_witness :
    initiateCopyV2 emptyCategorized samplePositiveIrState =
      ({ samplePositiveIrState with copyStage := CopyStage.copied },
        some (finalValueOf emptyCategorized samplePositiveIrState)) :=
  (C8_guarded_copy emptyCategorized samplePositiveIrState).1
    (by show (0 : ℚ) < irValueNumber "2,50"
        rw [irValueNumber_sample]
        norm_num)

/-! ### Masking round trip (C6) -/

theorem digitChar_isDigit (d : ℕ) (hd : d < 10) : (Nat.digitChar d).isDigit = true := by
  interval_cases d <;> decide

theorem digitVal_digitChar (d : ℕ) (hd : d < 10) : digitVal (Nat.digitChar d) = d := by
  interval_cases d <;> decide

theorem ne_dot_of_isDigit (c : Char) (h : c.isDigit = true) : c ≠ '.' := by
  rintro rfl
  exact absurd h (by decide)

theorem ne_comma_of_isDigit (c : Char) (h : c.isDigit = true) : c ≠ ',' := by
  rintro rfl
  exact absurd h (by decide)

theorem natOfDigitList_append_singleton (ds : List Char) (c : Char) :
    natOfDigitList (ds ++ [c]) = 10 * natOfDigitList ds + digitVal c := by
  rw [natOfDigitList, List.foldl_append]
  rfl

theorem natToDigitsCore_spec :
    ∀ (fuel m : ℕ) (acc : List Char), m < 10 ^ (fuel + 1) →
      ∃ ds : List Char, natToDigitsCore (fuel + 1) m acc = ds ++ acc ∧ ds ≠ [] ∧
        (∀ c ∈ ds, c.isDigit = true) ∧ natOfDigitList ds = m := by
  intro fuel
  induction fuel with
  | zero =>
    intro m acc hm
    rw [pow_one] at hm
    refine ⟨[Nat.digitChar m], ?_, by simp, ?_, ?_⟩
    · simp [natToDigitsCore, hm]
    · intro c hc
      rw [List.mem_singleton] at hc
      exact hc ▸ digitChar_isDigit m hm
    · show 10 * 0 + digitVal (Nat.digitChar m) = m
      rw [digitVal_digitChar m hm]
      omega
  | succ fuel ih =>
    intro m acc hm
    by_cases h10 : m < 10
    · refine ⟨[Nat.digitChar m], ?_, by simp, ?_, ?_⟩
      · simp [natToDigitsCore, h10]
      · intro c hc
        rw [List.mem_singleton] at hc
        exact hc ▸ digitChar_isDigit m h10
      · show 10 * 0 + digitVal (Nat.digitChar m) = m
        rw [digitVal_digitChar m h10]
        omega
    · have hlt : m / 10 < 10 ^ (fuel + 1) := by
        rw [Nat.div_lt_iff_lt_mul (by norm_num)]
        calc m < 10 ^ (fuel + 1 + 1) := hm
          _ = 10 ^ (fuel + 1) * 10 := by ring
      obtain ⟨ds, heq, hne, hdig, hval⟩ := ih (m / 10) (Nat.digitChar (m % 10) :: acc) hlt
      have hm10 : m % 10 < 10 := Nat.mod_lt _ (by norm_num)
      refine ⟨ds ++ [Nat.digitChar (m % 10)], ?_, by simp, ?_, ?_⟩
      · rw [show natToDigitsCore (fuel + 1 + 1) m acc
              = natToDigitsCore (fuel + 1) (m / 10) (Nat.digitChar (m % 10) :: acc) from by
            simp [natToDigitsCore, h10], heq]
        simp
      · intro c hc
        rcases List.mem_append.mp hc with hc | hc
        · exact hdig c hc
        · rw [List.mem_singleton] at hc
          exact hc ▸ digitChar_isDigit _ hm10
      · rw [natOfDigitList_append_singleton, hval, digitVal_digitChar _ hm10]
        omega

theorem natToDigits_spec (m : ℕ) :
    natToDigits m ≠ [] ∧ (∀ c ∈ natToDigits m, c.isDigit = true) ∧
      natOfDigitList (natToDigits m) = m := by
  have hm : m < 10 ^ (m + 1) := by
    calc m < 10 ^ m := Nat.lt_pow_self (by norm_num) m
      _ ≤ 10 ^ (m + 1) := Nat.pow_le_pow_right (by norm_num) (Nat.le_succ m)
  obtain ⟨ds, heq, hne, hdig, hval⟩ := natToDigitsCore_spec m m [] hm
  rw [natToDigits, heq, List.append_nil]
  exact ⟨hne, hdig, hval⟩

theorem pad2_spec (k : ℕ) (hk : k < 100) :
    (∀ c ∈ pad2 k, c.isDigit = true) ∧ natOfDigitList (pad2 k) = k := by
  have h1 : k / 10 < 10 := by omega
  have h2 : k % 10 < 10 := Nat.mod_lt _ (by norm_num)
  constructor
  · intro c hc
    rw [pad2, List.mem_cons, List.mem_singleton] at hc
    rcases hc with rfl | rfl
    · exact digitChar_isDigit _ h1
    · exact digitChar_isDigit _ h2
  · show 10 * (10 * 0 + digitVal (Nat.digitChar (k / 10))) + digitVal (Nat.digitChar (k % 10)) = k
    rw [digitVal_digitChar _ h1, digitVal_digitChar _ h2]
    omega

theorem groupAuxCore_filter :
    ∀ (fuel : ℕ) (ds : List Char),
      (groupAuxCore fuel ds).filter (fun c => c != '.') = ds.filter (fun c => c != '.') := by
  intro fuel
  induction fuel with
  | zero => intro ds; rfl
  | succ fuel ih =>
    intro ds
    by_cases h : ds.length ≤ 3
    · simp [groupAuxCore, h]
    · rw [show groupAuxCore (fuel + 1) ds
            = ds.take 3 ++ '.' :: groupAuxCore fuel (ds.drop 3) from by
          simp [groupAuxCore, h]]
      rw [List.filter_append, List.filter_cons]
      simp only [show (('.' : Char) != '.') = false from rfl, Bool.false_eq_true, if_false]
      rw [ih, ← List.filter_append, List.take_append_drop]

theorem groupAuxCore_mem :
    ∀ (fuel : ℕ) (ds : List Char) (c : Char), c ∈ groupAuxCore fuel ds → c ∈ ds ∨ c = '.' := by
  intro fuel
  induction fuel with
  | zero => intro ds c hc; exact Or.inl hc
  | succ fuel ih =>
    intro ds c hc
    by_cases h : ds.length ≤ 3
    · rw [show groupAuxCore (fuel + 1) ds = ds from by simp [groupAuxCore, h]] at hc
      exact Or.inl hc
    · rw [show groupAuxCore (fuel + 1) ds
            = ds.take 3 ++ '.' :: groupAuxCore fuel (ds.drop 3) from by
          simp [groupAuxCore, h]] at hc
      rcases List.mem_append.mp hc with hc | hc
      · exact Or.inl (List.take_subset 3 ds hc)
      · rcases List.mem_cons.mp hc with rfl | hc
        · exact Or.inr rfl
        · rcases ih (ds.drop 3) c hc with hc | hc
          · exact Or.inl (List.drop_subset 3 ds hc)
          · exact Or.inr hc

theorem groupThousands_filter (ds : List Char) (h : ∀ c ∈ ds, c.isDigit = true) :
    (groupThousands ds).filter (fun c => c != '.') = ds := by
  rw [groupThousands, List.filter_reverse, groupAuxCore_filter, ← List.filter_reverse,
    List.reverse_reverse]
  refine List.filter_eq_self.mpr ?_
  intro c hc
  simpa using ne_dot_of_isDigit c (h c hc)

theorem comma_not_mem_groupThousands (ds : List Char) (h : ∀ c ∈ ds, c.isDigit = true) :
    ',' ∉ groupThousands ds := by
  intro hmem
  rw [groupThousands, List.mem_reverse] at hmem
  rcases groupAuxCore_mem _ _ _ hmem with hc | hc
  · rw [List.mem_reverse] at hc
    exact ne_comma_of_isDigit ',' (h ',' hc) rfl
  · exact absurd hc (by decide)

theorem replaceCommaAux_append (l1 l2 : List Char) (h : ',' ∉ l1) :
    replaceCommaAux (l1 ++ ',' :: l2) = l1 ++ '.' :: l2 := by
  induction l1 with
  | nil => simp [replaceCommaAux]
  | cons a as ih =>
    have ha : ¬ (a = ',') := fun hc => h (hc ▸ List.mem_cons_self a as)
    rw [List.cons_append, replaceCommaAux, if_neg ha, List.cons_append,
      ih fun hm => h (List.mem_cons_of_mem a hm)]

theorem takeWhile_of_all (p : Char → Bool) (l : List Char) (h : ∀ x ∈ l, p x = true) :
    l.takeWhile p = l := by
  induction l with
  | nil => rfl
  | cons a as ih =>
    rw [List.takeWhile_cons, if_pos (h a (List.mem_cons_self a as))]
    rw [ih fun x hx => h x (List.mem_cons_of_mem a hx)]

theorem takeWhile_append_stop (p : Char → Bool) (l1 : List Char) (c : Char) (l2 : List Char)
    (h1 : ∀ x ∈ l1, p x = true) (hc : p c = false) :
    (l1 ++ c :: l2).takeWhile p = l1 := by
  induction l1 with
  | nil => simp [List.takeWhile_cons, hc]
  | cons a as ih =>
    rw [List.cons_append, List.takeWhile_cons, if_pos (h1 a (List.mem_cons_self a as))]
    rw [ih fun x hx => h1 x (List.mem_cons_of_mem a hx)]

theorem parseFloatModel_digits_dot_digits (l1 l2 : List Char)
    (h1 : ∀ c ∈ l1, c.isDigit = true) (h2 : ∀ c ∈ l2, c.isDigit = true) (hne : l2 ≠ []) :
    parseFloatModel (String.mk (l1 ++ '.' :: l2)) =
      some ((natOfDigitList l1 : ℚ) + (natOfDigitList l2 : ℚ) / 10 ^ l2.length) := by
  have ht : (l1 ++ '.' :: l2).takeWhile Char.isDigit = l1 :=
    takeWhile_append_stop Char.isDigit l1 '.' l2 h1 (by decide)
  have ht2 : l2.takeWhile Char.isDigit = l2 := takeWhile_of_all Char.isDigit l2 h2
  have hemp : l2.isEmpty = false := by
    cases l2 with
    | nil => exact absurd rfl hne
    | cons a as => rfl
  simp only [parseFloatModel, ht]
  rw [List.drop_left]
  simp only [ht2, hemp, Bool.and_false, Bool.false_eq_true, if_false]

theorem irValueNumber_formatPtBR (cents : ℕ) :
    irValueNumber (formatPtBR cents) = (cents : ℚ) / 100 := by
  obtain ⟨hne, hdig, hval⟩ := natToDigits_spec (cents / 100)
  obtain ⟨hdig2, hval2⟩ := pad2_spec (cents % 100) (Nat.mod_lt _ (by norm_num))
  have hF : formatPtBR cents =
      String.mk (groupThousands (natToDigits (cents / 100)) ++ ',' :: pad2 (cents % 100)) := rfl
  have hsne : ¬ (formatPtBR cents = "") := by
    intro h
    have hdata := congrArg String.data h
    rw [hF] at hdata
    simp at hdata
  have hrd : removeDots (formatPtBR cents) =
      String.mk (natToDigits (cents / 100) ++ ',' :: pad2 (cents % 100)) := by
    rw [hF, removeDots]
    show String.mk (List.filter _ _) = _
    rw [List.filter_append, groupThousands_filter _ hdig, List.filter_cons]
    simp only [show ((',' : Char) != '.') = true from rfl, if_true]
    rw [List.filter_eq_self.mpr fun c hc => by simpa using ne_dot_of_isDigit c (hdig2 c hc)]
  have hrc : replaceFirstComma
        (String.mk (natToDigits (cents / 100) ++ ',' :: pad2 (cents % 100))) =
      String.mk (natToDigits (cents / 100) ++ '.' :: pad2 (cents % 100)) := by
    rw [replaceFirstComma]
    show String.mk (replaceCommaAux _) = _
    rw [replaceCommaAux_append _ _ fun hm => ne_comma_of_isDigit ',' (hdig ',' hm) rfl]
  rw [irValueNumber, if_neg hsne, hrd, hrc]
  show (match parseFloatModel (String.mk (natToDigits (cents / 100) ++ '.' ::
      pad2 (cents % 100))) with | none => 0 | some num => num) = (cents : ℚ) / 100
  rw [parseFloatModel_digits_dot_digits _ _ hdig hdig2 (by simp [pad2])]
  rw [hval, hval2, show (pad2 (cents % 100)).length = 2 from rfl]
  have hnat : 100 * (cents / 100) + cents % 100 = cents := Nat.div_add_mod cents 100
  have hq : (100 : ℚ) * ((cents / 100 : ℕ) : ℚ) + ((cents % 100 : ℕ) : ℚ) = (cents : ℚ) := by
    exact_mod_cast congrArg (Nat.cast : ℕ → ℚ) hnat
  rw [show ((10 : ℚ) ^ 2) = 100 from by norm_num]
  field_simp
  linarith [hq]

/-- The full masking round trip: whatever is typed, the stored masked string
re-parses to (digits of the input) / 100. -/
theorem irValueNumber_handleIrChange (input : String) :
    irValueNumber (handleIrChange input) = (natOfDigits (stripNonDigits input) : ℚ) / 100 := by
  by_cases h : stripNonDigits input = ""
  · have hmask : handleIrChange input = "" := by
      rw [handleIrChange]
      simp only [h, if_pos]
    rw [hmask, h]
    simp [irValueNumber, natOfDigits, natOfDigitList]
  · have hmask : handleIrChange input = formatPtBR (natOfDigits (stripNonDigits input)) := by
      rw [handleIrChange]
      simp only [h, if_neg, if_false]
    rw [hmask]
    exact irValueNumber_formatPtBR _

/-- C6: the withholding mask strips non-digits, reads the digits as cents
and renders a pt-BR decimal with exactly two fraction digits, and re-parsing
the rendered string recovers digits/100; at the spec's example, typing
"12345" renders "123,45", which re-parses to 123.45. -/
theorem C6_withholding_mask (input : String) :
    handleIrChange "12345" = "123,45" ∧
    irValueNumber "123,45" = 12345 / 100 ∧
    irValueNumber (handleIrChange input) = (natOfDigits (stripNonDigits input) : ℚ) / 100 := by
  refine ⟨by decide, ?_, irValueNumber_handleIrChange input⟩
  have h := irValueNumber_handleIrChange "12345"
  rw [show handleIrChange "12345" = "123,45" from by decide,
    show natOfDigits (stripNonDigits "12345") = 12345 from by decide] at h
  rw [h]
  norm_num
